import Mathlib

/-! Verification of the zenoh message-envelope layer: a shallow embedding of
`src/zenoh/src/api/selector.rs` (Selector / Parameters) and
`src/zenoh/src/sample.rs` (Attachment codec, QoS, Sample), with theorems
checking the natural-language specification against it. -/

namespace Zenoh

/-- Rust strings are modelled as lists of characters. -/
abbrev Str := List Char

/-- Typed failures of this layer: an invalid key-expression prefix
(`zenoh_result::Error` carrying the key-expression rejection), the
duplicate-parameter failure of keyed accessors, and propagated parse errors
of the external time-range grammar. -/
inductive ZError where
  | invalidKeyExpr
  | duplicateParameter
  | timeRangeParse
deriving DecidableEq

/-- Modelled from the spec: the key-expression grammar is an external
collaborator ("opaque, externally validated", "a non-empty, `/`-segmented
path-like string"); and since the selector grammar splits at the first `?`
with everything before it a key expression, a valid key expression contains
no `?`. Validity is modelled as exactly these two constraints. -/
def keyexpr_valid (s : Str) : Bool := decide (s ≠ [] ∧ '?' ∉ s)

/-- `KeyExpr::try_from` over the spec-modelled grammar: succeed with the
string itself iff it is a valid key expression. -/
def KeyExpr.tryFrom (s : Str) : Except ZError Str :=
  if keyexpr_valid s then .ok s else .error .invalidKeyExpr

/-- The `s.find('?')` plus slicing steps of `impl TryFrom<&str> for Selector`
(src/zenoh/src/api/selector.rs): split a string at its first `?`, returning
the part before and the part after it, or `none` when there is no `?`. -/
def splitAtQ : Str → Option (Str × Str)
  | [] => none
  | c :: rest =>
    if c = '?' then some ([], rest)
    else
      match splitAtQ rest with
      | some (a, b) => some (c :: a, b)
      | none => none

/-- A selector: a key expression paired with the raw parameters string
(`Parameters` wraps `Properties`, which stores the raw string). -/
structure Selector where
  key : Str
  params : Str
deriving DecidableEq

/-- `impl TryFrom<&str> for Selector` (same algorithm as the
`TryFrom<String>` impl): split at the first `?`; the prefix must be a valid
key expression; the suffix becomes the parameters; with no `?`, the whole
string is the key expression and the parameters are the default (empty). -/
def Selector.tryFrom (s : Str) : Except ZError Selector :=
  match splitAtQ s with
  | some (before, after) =>
    match KeyExpr.tryFrom before with
    | .ok k => .ok ⟨k, after⟩
    | .error e => .error e
  | none =>
    match KeyExpr.tryFrom s with
    | .ok k => .ok ⟨k, []⟩
    | .error e => .error e

/-- `impl Display for Selector`: the key expression, then `?` and the
parameters string iff the parameters are nonempty. -/
def Selector.display (sel : Selector) : Str :=
  sel.key ++ (if sel.params.isEmpty then [] else '?' :: sel.params)

/-- `impl FromStr for Selector`: the entire input is converted as a key
expression and the parameters are `Parameters::default()` (empty); there is
no splitting at `?`. -/
def Selector.fromStr (s : Str) : Except ZError Selector :=
  match KeyExpr.tryFrom s with
  | .ok k => .ok ⟨k, []⟩
  | .error e => .error e

/-- Modelled from the spec: the parameter section is "a sequence of entries
separated by a delimiter character"; the delimiter is `;` (as in the source
file's tests). Splits the raw string on `;`. -/
def splitSemi : Str → List Str
  | [] => [[]]
  | c :: rest =>
    if c = ';' then [] :: splitSemi rest
    else
      match splitSemi rest with
      | [] => [[c]]
      | a :: t => (c :: a) :: t

/-- Modelled from the spec: each entry is `name['=' value]`, "split on the
first `=`; absence of `=` implies an empty-string value". -/
def entryPair : Str → Str × Str
  | [] => ([], [])
  | c :: rest =>
    if c = '=' then ([], rest)
    else
      let p := entryPair rest
      (c :: p.1, p.2)

/-- Modelled from the spec: the (name, value) pairs denoted by a raw
parameters string; the empty string denotes no entries. -/
def paramPairs (ps : Str) : List (Str × Str) :=
  if ps.isEmpty then [] else (splitSemi ps).map entryPair

/-- Modelled from the spec: keyed lookup on Parameters (`Properties::get`,
which lives in zenoh-protocol and is not under src/). Per the spec, keyed
accessors "must detect and reject duplicates rather than silently picking
one", surfacing "DuplicateParameter-style failures"; a unique match returns
its value, no match returns `none`. Percent-decoding is not modelled (no
claim exercises it; round trips hold exactly on the raw strings). -/
def Parameters.get (ps : Str) (name : Str) : Except ZError (Option Str) :=
  match (paramPairs ps).filter (fun p => p.1 == name) with
  | [] => .ok none
  | [p] => .ok (some p.2)
  | _ => .error .duplicateParameter

/-- The reserved `_time` parameter name (`TIME_RANGE_KEY`). -/
def TIME_RANGE_KEY : Str := "_time".toList

/-- Modelled from the spec: the time-range mini-language is an external
collaborator, out of scope; Parameters "translate to/from that external type
without validating the grammar themselves". Parsing is modelled as accepting
every string (no claim exercises grammar failures). -/
def parseTimeRange (s : Str) : Except ZError Str := .ok s

/-- `Parameters::time_range` (src/zenoh/src/api/selector.rs): keyed lookup of
`_time` through the spec-modelled duplicate-rejecting accessor, parsing the
value when one is present. -/
def Parameters.time_range (ps : Str) : Except ZError (Option Str) :=
  match Parameters.get ps TIME_RANGE_KEY with
  | .ok (some tr) =>
    match parseTimeRange tr with
    | .ok t => .ok (some t)
    | .error e => .error e
  | .ok none => .ok none
  | .error e => .error e

theorem splitAtQ_none (s : Str) (h : '?' ∉ s) : splitAtQ s = none := by
  induction s with
  | nil => rfl
  | cons c rest ih =>
    have hc : ¬ c = '?' := fun hc => h (by simp [hc])
    have hr : '?' ∉ rest := fun hr => h (List.mem_cons_of_mem _ hr)
    simp [splitAtQ, hc, ih hr]

theorem splitAtQ_append (a b : Str) (h : '?' ∉ a) :
    splitAtQ (a ++ '?' :: b) = some (a, b) := by
  induction a with
  | nil => simp [splitAtQ]
  | cons c rest ih =>
    have hc : ¬ c = '?' := fun hc => h (by simp [hc])
    have hr : '?' ∉ rest := fun hr => h (List.mem_cons_of_mem _ hr)
    simp [splitAtQ, hc, ih hr]

theorem keyexpr_valid_iff (s : Str) :
    keyexpr_valid s = true ↔ (s ≠ [] ∧ '?' ∉ s) := by
  simp [keyexpr_valid]

/-- C2: parsing a selector string locates the first `?`: the prefix before it
must be a valid key expression (otherwise parsing fails with the
invalid-key-expression error) and the suffix becomes the Parameters; a string
with no `?` is parsed whole as the key expression with empty Parameters. -/
theorem selector_parse_splits_at_first_qmark (a b s : Str) :
    ('?' ∉ a → Selector.tryFrom (a ++ '?' :: b) =
      (if keyexpr_valid a then .ok ⟨a, b⟩ else .error .invalidKeyExpr)) ∧
    ('?' ∉ s → Selector.tryFrom s =
      (if keyexpr_valid s then .ok ⟨s, []⟩ else .error .invalidKeyExpr)) := by
  constructor
  · intro ha
    by_cases hv : keyexpr_valid a = true
    · simp [Selector.tryFrom, splitAtQ_append a b ha, KeyExpr.tryFrom, hv]
    · simp [Selector.tryFrom, splitAtQ_append a b ha, KeyExpr.tryFrom, hv]
  · intro hs
    by_cases hv : keyexpr_valid s = true
    · simp [Selector.tryFrom, splitAtQ_none s hs, KeyExpr.tryFrom, hv]
    · simp [Selector.tryFrom, splitAtQ_none s hs, KeyExpr.tryFrom, hv]

/-- Witness for C2 at the selector string `a/b?x=1` and at `a/b`. -/
theorem selector_parse_splits_at_first_qmark_witness :
    Selector.tryFrom "a/b?x=1".toList = .ok ⟨"a/b".toList, "x=1".toList⟩ ∧
    Selector.tryFrom "a/b".toList = .ok ⟨"a/b".toList, []⟩ := by
  have h := selector_parse_splits_at_first_qmark "a/b".toList "x=1".toList "a/b".toList
  constructor
  · have h1 := h.1 (by decide)
    rwa [show ("a/b".toList ++ '?' :: "x=1".toList) = "a/b?x=1".toList by rfl,
      if_pos (by decide)] at h1
  · have h2 := h.2 (by decide)
    rwa [if_pos (by decide)] at h2

/-- C4: selector round trip. For every valid key expression `k` and every
parameters string `ps`, serializing the Selector `(k, ps)` and parsing the
result back succeeds and yields `k` unchanged exactly and the parameter
string unchanged, hence the same set of (name, value) pairs. -/
theorem selector_roundtrip (k ps : Str) (hk : keyexpr_valid k = true) :
    ∃ sel, Selector.tryFrom (Selector.display ⟨k, ps⟩) = .ok sel ∧
      sel.key = k ∧ sel.params = ps ∧ paramPairs sel.params = paramPairs ps := by
  refine ⟨⟨k, ps⟩, ?_, rfl, rfl, rfl⟩
  have hq : '?' ∉ k := ((keyexpr_valid_iff k).mp hk).2
  cases hps : ps with
  | nil =>
    simp [Selector.display, Selector.tryFrom, splitAtQ_none k hq, KeyExpr.tryFrom, hk]
  | cons c rest =>
    simp [Selector.display, Selector.tryFrom, splitAtQ_append k (c :: rest) hq,
      KeyExpr.tryFrom, hk]

/-- Witness for C4 at key expression `a/b` and parameters `x=1;y=2`. -/
theorem selector_roundtrip_witness :
    ∃ sel, Selector.tryFrom (Selector.display ⟨"a/b".toList, "x=1;y=2".toList⟩) = .ok sel ∧
      sel.key = "a/b".toList ∧ sel.params = "x=1;y=2".toList ∧
      paramPairs sel.params = paramPairs "x=1;y=2".toList :=
  selector_roundtrip "a/b".toList "x=1;y=2".toList (by decide)

/-- C10: `FromStr` parses the entire input as a key expression and always
returns empty Parameters, never splitting at `?`; it succeeds exactly when
the whole string is a valid key expression, so on any string with a
parameter section it fails (a `?` cannot occur in a valid key expression)
while `TryFrom<&str>` splits and can succeed. -/
theorem selector_fromStr_whole_string (s a b : Str) :
    (Selector.fromStr s =
      (if keyexpr_valid s then .ok ⟨s, []⟩ else .error .invalidKeyExpr)) ∧
    (s = a ++ '?' :: b → Selector.fromStr s = .error .invalidKeyExpr) ∧
    (s = a ++ '?' :: b → '?' ∉ a → keyexpr_valid a = true →
      Selector.tryFrom s = .ok ⟨a, b⟩) := by
  refine ⟨?_, ?_, ?_⟩
  · rw [Selector.fromStr, KeyExpr.tryFrom]
    by_cases hv : keyexpr_valid s = true
    · simp [hv]
    · simp [hv]
  · intro hs
    have hv : keyexpr_valid s = false := by
      rw [← Bool.not_eq_true]
      intro hcon
      exact ((keyexpr_valid_iff s).mp hcon).2 (by simp [hs])
    rw [Selector.fromStr, KeyExpr.tryFrom, hv]
    rfl
  · intro hs ha hv
    subst hs
    simp [Selector.tryFrom, splitAtQ_append a b ha, KeyExpr.tryFrom, hv]

/-- Witness for C10 at the string `a/b?x=1`: `FromStr` rejects it while
`TryFrom<&str>` splits it. -/
theorem selector_fromStr_whole_string_witness :
    Selector.fromStr "a/b?x=1".toList = .error .invalidKeyExpr ∧
    Selector.tryFrom "a/b?x=1".toList = .ok ⟨"a/b".toList, "x=1".toList⟩ := by
  have h := selector_fromStr_whole_string "a/b?x=1".toList "a/b".toList "x=1".toList
  exact ⟨h.2.1 (by decide), h.2.2 (by decide) (by decide) (by decide)⟩

/-- C1: duplicate-parameter policy. Whenever the parameters contain two (or
more) entries with the same name, keyed lookup of that name fails with the
duplicate-parameter error rather than returning either value, and the
reserved-parameter extractor `time_range` fails the same way when the
duplicated name is `_time`. -/
theorem duplicate_parameter_rejected (ps name : Str)
    (h : 1 < ((paramPairs ps).filter (fun p => p.1 == name)).length) :
    Parameters.get ps name = .error .duplicateParameter ∧
    (name = TIME_RANGE_KEY →
      Parameters.time_range ps = .error .duplicateParameter) := by
  have hget : Parameters.get ps name = .error .duplicateParameter := by
    rw [Parameters.get]
    rcases hfil : (paramPairs ps).filter (fun p => p.1 == name) with _ | ⟨p, _ | ⟨q, t⟩⟩
    · rw [hfil] at h; simp at h
    · rw [hfil] at h; simp at h
    · rw [hfil]
  refine ⟨hget, fun hname => ?_⟩
  rw [Parameters.time_range, ← hname, hget]

/-- Witness for C1: parsing the selector string `k?a=1;a=2` produces the
parameters `a=1;a=2`, on which keyed lookup of `a` fails with the
duplicate-parameter error; likewise `time_range` on `_time=1;_time=2`. -/
theorem duplicate_parameter_rejected_witness :
    Selector.tryFrom "k?a=1;a=2".toList = .ok ⟨"k".toList, "a=1;a=2".toList⟩ ∧
    Parameters.get "a=1;a=2".toList "a".toList = .error .duplicateParameter ∧
    Parameters.time_range "_time=1;_time=2".toList = .error .duplicateParameter := by
  refine ⟨by rfl, ?_, ?_⟩
  · exact (duplicate_parameter_rejected "a=1;a=2".toList "a".toList (by decide)).1
  · exact (duplicate_parameter_rejected "_time=1;_time=2".toList TIME_RANGE_KEY
      (by decide)).2 rfl

/-- Modelled from the spec: the length part of the variable-length field
primitive (the general unsigned varint: "7 payload bits per byte, high bit =
continuation, little-endian accumulation"). Bytes are modelled as `Nat`
values below 256. -/
def vencode (n : Nat) : List Nat :=
  if h : n < 128 then [n] else (n % 128 + 128) :: vencode (n / 128)
termination_by n
decreasing_by omega

/-- Varint read: consume continuation bytes, accumulating little-endian;
`none` when the bytes run out before a byte without the high bit. -/
def vdecode : List Nat → Option (Nat × List Nat)
  | [] => none
  | b :: rest =>
    if b < 128 then some (b, rest)
    else
      match vdecode rest with
      | some (n, r) => some (b % 128 + 128 * n, r)
      | none => none

/-- Modelled from the spec: `VarFieldCodec` write — a field is its length as
a varint followed by its raw bytes. -/
def writeField (f : List Nat) : List Nat := vencode f.length ++ f

/-- Modelled from the spec: `VarFieldCodec` read — read a varint length then
that many bytes; `none` when fewer bytes remain. -/
def readField (bs : List Nat) : Option (List Nat × List Nat) :=
  match vdecode bs with
  | some (len, rest) =>
    if len ≤ rest.length then some (rest.take len, rest.drop len) else none
  | none => none

theorem vencode_small (n : Nat) (h : n < 128) : vencode n = [n] := by
  unfold vencode
  simp [h]

theorem vdecode_vencode (n : Nat) (rest : List Nat) :
    vdecode (vencode n ++ rest) = some (n, rest) := by
  induction n using Nat.strong_induction_on with
  | _ n ih =>
    by_cases h : n < 128
    · rw [vencode_small n h]
      simp [vdecode, h]
    · rw [vencode]
      rw [dif_neg h]
      have hge : ¬ n % 128 + 128 < 128 := by omega
      simp only [List.cons_append, vdecode, if_neg hge, List.append_eq]
      rw [ih (n / 128) (by omega)]
      simp only [Option.some.injEq, Prod.mk.injEq, and_true]
      omega

theorem readField_writeField (f rest : List Nat) :
    readField (writeField f ++ rest) = some (f, rest) := by
  rw [writeField, List.append_assoc, readField, vdecode_vencode]
  simp

theorem vdecode_shrink (bs : List Nat) (n : Nat) (r : List Nat)
    (h : vdecode bs = some (n, r)) : r.length < bs.length := by
  induction bs generalizing n with
  | nil => cases h
  | cons b rest ih =>
    rw [vdecode] at h
    by_cases hb : b < 128
    · rw [if_pos hb] at h
      cases h
      simp
    · rw [if_neg hb] at h
      cases hr : vdecode rest with
      | none => rw [hr] at h; cases h
      | some p =>
        rw [hr] at h
        cases h
        have := ih p.1 (by rw [hr])
        simp only [List.length_cons]
        omega

theorem readField_shrink (bs f r : List Nat)
    (h : readField bs = some (f, r)) : r.length < bs.length := by
  rw [readField] at h
  cases hv : vdecode bs with
  | none => rw [hv] at h; cases h
  | some p =>
    obtain ⟨len, rest⟩ := p
    rw [hv] at h
    simp only at h
    by_cases hle : len ≤ rest.length
    · rw [if_pos hle] at h
      cases h
      have := vdecode_shrink bs len rest hv
      simp only [List.length_drop]
      omega
    · rw [if_neg hle] at h
      cases h

/-- `impl Iterator for AttachmentIterator`: repeatedly read a key field then
a value field; stop (without signaling an error) as soon as either read
fails, which also covers exact exhaustion of the stream. Produces the full
pair sequence of the iterator. -/
def readPairs (bs : List Nat) : List (List Nat × List Nat) :=
  match h1 : readField bs with
  | none => []
  | some (k, r1) =>
    match h2 : readField r1 with
    | none => []
    | some (v, r2) => (k, v) :: readPairs r2
termination_by bs.length
decreasing_by
  have a1 := readField_shrink bs k r1 h1
  have a2 := readField_shrink r1 v r2 h2
  omega

theorem readPairs_nil_of_key_fail (bs : List Nat) (h : readField bs = none) :
    readPairs bs = [] := by
  rw [readPairs.eq_def]
  split
  · rfl
  · rename_i k r1 heq
    rw [h] at heq
    cases heq

theorem readPairs_cons (k v rest : List Nat) :
    readPairs (writeField k ++ (writeField v ++ rest)) =
      (k, v) :: readPairs rest := by
  rw [readPairs.eq_def]
  split
  · rename_i heq
    rw [readField_writeField] at heq
    cases heq
  · rename_i k' r1 heq
    rw [readField_writeField] at heq
    cases heq
    split
    · rename_i heq2
      rw [readField_writeField] at heq2
      cases heq2
    · rename_i v' r2 heq2
      rw [readField_writeField] at heq2
      cases heq2
      rfl

theorem readPairs_nil : readPairs [] = [] :=
  readPairs_nil_of_key_fail [] rfl

/-- `AttachmentBuilder::insert` (via `_insert`): write the key field then the
value field onto the builder's byte vector (modelled as the vector itself). -/
def AttachmentBuilder.insert (inner : List Nat) (k v : List Nat) : List Nat :=
  inner ++ (writeField k ++ writeField v)

/-- Inserting a whole pair list in order through `AttachmentBuilder::insert`. -/
def AttachmentBuilder.insertAll (inner : List Nat) :
    List (List Nat × List Nat) → List Nat
  | [] => inner
  | p :: t => AttachmentBuilder.insertAll (AttachmentBuilder.insert inner p.1 p.2) t

/-- An `Attachment` is its frozen `ZBuf`, logically a single contiguous byte
stream (possibly held as several reference-counted segments). -/
abbrev Attachment := List Nat

/-- `AttachmentBuilder::build`: freeze the accumulated bytes, without copying. -/
def AttachmentBuilder.build (inner : List Nat) : Attachment := inner

/-- `Attachment::iter`: the decoded pair sequence of the byte stream. -/
def Attachment.pairs (a : Attachment) : List (List Nat × List Nat) := readPairs a

/-- `Attachment::extend` (via `_extend`): push the other attachment's buffer
slices onto this one's; at the byte-stream level, concatenation. -/
def Attachment.extend (a b : Attachment) : Attachment := a ++ b

/-- `FromIterator` for `Attachment`: write every pair through a fresh builder
and freeze it. -/
def Attachment.fromPairs (l : List (List Nat × List Nat)) : Attachment :=
  AttachmentBuilder.build (AttachmentBuilder.insertAll [] l)

/-- The flat encoding of a pair list: key field then value field per pair,
concatenated with no separator. -/
def encodePairs : List (List Nat × List Nat) → List Nat
  | [] => []
  | p :: t => writeField p.1 ++ (writeField p.2 ++ encodePairs t)

theorem insertAll_eq (inner : List Nat) (l : List (List Nat × List Nat)) :
    AttachmentBuilder.insertAll inner l = inner ++ encodePairs l := by
  induction l generalizing inner with
  | nil => simp [AttachmentBuilder.insertAll, encodePairs]
  | cons p t ih =>
    rw [AttachmentBuilder.insertAll, ih, encodePairs]
    simp [AttachmentBuilder.insert]

theorem readPairs_encodePairs (l : List (List Nat × List Nat)) :
    readPairs (encodePairs l) = l := by
  induction l with
  | nil => rw [encodePairs, readPairs_nil]
  | cons p t ih => rw [encodePairs, readPairs_cons, ih]

theorem encodePairs_append (a b : List (List Nat × List Nat)) :
    encodePairs (a ++ b) = encodePairs a ++ encodePairs b := by
  induction a with
  | nil => simp [encodePairs]
  | cons p t ih => simp [encodePairs, ih]

theorem fromPairs_eq (l : List (List Nat × List Nat)) :
    Attachment.fromPairs l = encodePairs l := by
  rw [Attachment.fromPairs, AttachmentBuilder.build, insertAll_eq, List.nil_append]

/-- C3: attachment round trip. Inserting any finite pair sequence in order
via the builder and freezing yields an Attachment whose iteration is exactly
that sequence (keys and values are arbitrary byte strings, including empty
ones); concretely, inserting `(a, 1)` then `(b, 2)` encodes to the byte
stream `[1, 97, 1, 49, 1, 98, 1, 50]`, which decodes back to exactly those
two pairs. -/
theorem attachment_roundtrip :
    (∀ l : List (List Nat × List Nat),
      Attachment.pairs (AttachmentBuilder.build (AttachmentBuilder.insertAll [] l)) = l) ∧
    AttachmentBuilder.insertAll [] [([97], [49]), ([98], [50])] =
      [1, 97, 1, 49, 1, 98, 1, 50] ∧
    Attachment.pairs [1, 97, 1, 49, 1, 98, 1, 50] = [([97], [49]), ([98], [50])] := by
  have hgen : ∀ l : List (List Nat × List Nat),
      Attachment.pairs (AttachmentBuilder.build (AttachmentBuilder.insertAll [] l)) = l := by
    intro l
    rw [AttachmentBuilder.build, Attachment.pairs, insertAll_eq, List.nil_append,
      readPairs_encodePairs]
  have henc : AttachmentBuilder.insertAll ([] : List Nat) [([97], [49]), ([98], [50])] =
      [1, 97, 1, 49, 1, 98, 1, 50] := by
    rw [insertAll_eq]
    simp [encodePairs, writeField, vencode_small]
  refine ⟨hgen, henc, ?_⟩
  have h := hgen [([97], [49]), ([98], [50])]
  rw [AttachmentBuilder.build, henc] at h
  exact h

/-- C5: lenient decode. A byte stream holding one well-formed pair followed
by a truncated trailing length-prefixed field decodes to exactly the one
complete pair: the iterator treats the partial field as end of data. Failure
is not a representable outcome of the embedded iterator, which mirrors the
source iterator ending by returning `None` rather than an error. -/
theorem lenient_attachment_decode (k v t : List Nat) (h : readField t = none) :
    Attachment.pairs (writeField k ++ (writeField v ++ t)) = [(k, v)] := by
  rw [Attachment.pairs, readPairs_cons, readPairs_nil_of_key_fail t h]

/-- Witness for C5: the pair `(a, 1)` followed by the truncated field `[5]`
(a length prefix of 5 with no bytes after it) decodes to exactly that pair. -/
theorem lenient_attachment_decode_witness :
    readField [5] = none ∧
    Attachment.pairs [1, 97, 1, 49, 5] = [([97], [49])] := by
  have hb : writeField [97] ++ (writeField [49] ++ [5]) = [1, 97, 1, 49, 5] := by
    simp [writeField, vencode_small]
  have h := lenient_attachment_decode [97] [49] [5] (by rfl)
  rw [hb] at h
  exact ⟨rfl, h⟩

/-- C8 as stated is false: `extend` concatenates raw byte segments, and an
`Attachment` may hold a malformed stream (e.g. one received from the wire via
`From<AttachmentType>`): extending the stream `[1]` (which iterates as no
pairs, being a bare length prefix) with `[97, 0]` (also no pairs: length 97
exceeds the remainder) fuses the bytes into a stream holding one pair. -/
theorem attachment_extend_counterexample :
    Attachment.pairs (Attachment.extend (Attachment.extend [1] [97, 0]) []) ≠
      Attachment.pairs [1] ++ (Attachment.pairs [97, 0] ++ Attachment.pairs []) := by
  have h1 : Attachment.extend (Attachment.extend [1] [97, 0]) [] =
      writeField [97] ++ (writeField [] ++ []) := by
    simp [Attachment.extend, writeField, vencode_small]
  have hL : Attachment.pairs (Attachment.extend (Attachment.extend [1] [97, 0]) []) =
      [([97], [])] := by
    rw [Attachment.pairs, h1, readPairs_cons, readPairs_nil]
  have h2 : Attachment.pairs [1] = [] := readPairs_nil_of_key_fail [1] rfl
  have h3 : Attachment.pairs [97, 0] = [] := readPairs_nil_of_key_fail [97, 0] rfl
  have h4 : Attachment.pairs [] = [] := readPairs_nil
  rw [hL, h2, h3, h4]
  simp

/-- C8 amended: restricted to attachments whose byte streams are well-formed
pair encodings — as produced by the builder — `A.extend(B).extend(C)` yields
exactly the concatenation of the three pair sequences, the same logical
sequence as an attachment built directly from the concatenated pair list. -/
theorem attachment_extend_assoc (la lb lc : List (List Nat × List Nat)) :
    Attachment.pairs
        (Attachment.extend
          (Attachment.extend (Attachment.fromPairs la) (Attachment.fromPairs lb))
          (Attachment.fromPairs lc)) =
      la ++ (lb ++ lc) ∧
    Attachment.pairs (Attachment.fromPairs (la ++ (lb ++ lc))) = la ++ (lb ++ lc) := by
  constructor
  · rw [Attachment.pairs, fromPairs_eq, fromPairs_eq, fromPairs_eq,
      Attachment.extend, Attachment.extend, List.append_assoc,
      ← encodePairs_append, ← encodePairs_append, readPairs_encodePairs]
  · rw [Attachment.pairs, fromPairs_eq, readPairs_encodePairs]

/-- The seven ordered priority levels, highest first. -/
inductive Priority where
  | realTime
  | interactiveHigh
  | interactiveLow
  | dataHigh
  | data
  | dataLow
  | background
deriving DecidableEq

/-- Modelled from the spec: the wire ordinal of each priority level (0 to 6,
ordered from highest to lowest; `Priority` and its conversions live in
zenoh-protocol, not under src/). -/
def Priority.ordinal : Priority → Nat
  | .realTime => 0
  | .interactiveHigh => 1
  | .interactiveLow => 2
  | .dataHigh => 3
  | .data => 4
  | .dataLow => 5
  | .background => 6

/-- Modelled from the spec: `Priority::try_from` on a wire ordinal — the
ordinals 0 to 6 convert, anything else is out of range. -/
def Priority.ofOrdinal : Nat → Option Priority
  | 0 => some .realTime
  | 1 => some .interactiveHigh
  | 2 => some .interactiveLow
  | 3 => some .dataHigh
  | 4 => some .data
  | 5 => some .dataLow
  | 6 => some .background
  | _ => none

/-- Congestion-control label: `Drop` (default) or `Block`. -/
inductive CongestionControl where
  | drop
  | block
deriving DecidableEq

/-- Modelled from the spec: the bit-packed `QoSType` wire byte (zenoh-protocol,
not under src/): bits 0 to 2 hold the priority ordinal, bit 3 the congestion
control (0 = Drop), bit 4 the express flag; the default byte carries priority
Data (ordinal 4), Drop and not express. -/
structure QoS where
  byte : Nat
deriving DecidableEq

/-- The default `QoS`: priority Data (ordinal 4), congestion control Drop,
express false. -/
def QoS.default : QoS := ⟨4⟩

/-- `QoS::priority` together with its diagnostic: convert the 3-bit ordinal;
on an out-of-range ordinal fall back to the default priority and emit a
diagnostic observation (the Boolean component). -/
def QoS.priorityWithDiag (q : QoS) : Priority × Bool :=
  match Priority.ofOrdinal (q.byte % 8) with
  | some p => (p, false)
  | none => (Priority.data, true)

/-- `QoS::priority`: the converted priority, with the default substituted for
an out-of-range ordinal. -/
def QoS.priority (q : QoS) : Priority := q.priorityWithDiag.1

/-- `QoS::congestion_control`: bit 3 of the wire byte. -/
def QoS.congestion_control (q : QoS) : CongestionControl :=
  if q.byte / 8 % 2 = 1 then .block else .drop

/-- `QoS::express`: bit 4 of the wire byte. -/
def QoS.express (q : QoS) : Bool := q.byte / 16 % 2 = 1

/-- `QoS::with_priority`: replace bits 0 to 2 with the new ordinal, leaving
the rest of the byte unchanged. -/
def QoS.with_priority (q : QoS) (p : Priority) : QoS :=
  ⟨q.byte / 8 * 8 + p.ordinal⟩

/-- The bit-3 contribution of a congestion-control label. -/
def CongestionControl.bit : CongestionControl → Nat
  | .drop => 0
  | .block => 8

/-- `QoS::with_congestion_control`: replace bit 3, leaving the rest of the
byte unchanged. -/
def QoS.with_congestion_control (q : QoS) (c : CongestionControl) : QoS :=
  ⟨q.byte / 16 * 16 + c.bit + q.byte % 8⟩

/-- `QoS::with_express`: replace bit 4, leaving the rest of the byte
unchanged. -/
def QoS.with_express (q : QoS) (b : Bool) : QoS :=
  ⟨q.byte / 32 * 32 + 16 * b.toNat + q.byte % 16⟩

theorem priority_congr (q r : QoS) (h : q.byte % 8 = r.byte % 8) :
    q.priority = r.priority := by
  rw [QoS.priority, QoS.priority, QoS.priorityWithDiag, QoS.priorityWithDiag, h]

theorem congestion_congr (q r : QoS) (h : q.byte / 8 % 2 = r.byte / 8 % 2) :
    q.congestion_control = r.congestion_control := by
  rw [QoS.congestion_control, QoS.congestion_control, h]

theorem express_congr (q r : QoS) (h : q.byte / 16 % 2 = r.byte / 16 % 2) :
    q.express = r.express := by
  rw [QoS.express, QoS.express, h]

theorem ordinal_le (p : Priority) : p.ordinal ≤ 6 := by
  cases p <;> decide

/-- C6: QoS defaults and setter independence. The default QoS has priority
Data, congestion control Drop and express false; and each of the three pure
copy-and-return setters leaves the other two fields intact — in particular
`q.with_priority(p).with_express(true).congestion_control()` equals
`q.congestion_control()`. -/
theorem qos_defaults_and_independence (q : QoS) (p : Priority)
    (c : CongestionControl) (b : Bool) :
    (QoS.default.priority = Priority.data ∧
     QoS.default.congestion_control = CongestionControl.drop ∧
     QoS.default.express = false) ∧
    ((q.with_priority p).with_express true).congestion_control =
      q.congestion_control ∧
    ((q.with_priority p).congestion_control = q.congestion_control ∧
     (q.with_priority p).express = q.express) ∧
    ((q.with_congestion_control c).priority = q.priority ∧
     (q.with_congestion_control c).express = q.express) ∧
    ((q.with_express b).priority = q.priority ∧
     (q.with_express b).congestion_control = q.congestion_control) := by
  have ho := ordinal_le p
  refine ⟨⟨rfl, rfl, rfl⟩, ?_, ⟨?_, ?_⟩, ⟨?_, ?_⟩, ⟨?_, ?_⟩⟩
  · apply congestion_congr
    simp only [QoS.with_express, QoS.with_priority, Bool.toNat_true]
    omega
  · apply congestion_congr
    simp only [QoS.with_priority]
    omega
  · apply express_congr
    simp only [QoS.with_priority]
    omega
  · apply priority_congr
    cases c <;> simp only [QoS.with_congestion_control, CongestionControl.bit] <;> omega
  · apply express_congr
    cases c <;> simp only [QoS.with_congestion_control, CongestionControl.bit] <;> omega
  · apply priority_congr
    cases b <;>
      simp only [QoS.with_express, Bool.toNat_true, Bool.toNat_false] <;> omega
  · apply congestion_congr
    cases b <;>
      simp only [QoS.with_express, Bool.toNat_true, Bool.toNat_false] <;> omega

theorem ofOrdinal_none_iff (n : Nat) :
    Priority.ofOrdinal n = none ↔ 7 ≤ n := by
  rcases n with _ | _ | _ | _ | _ | _ | _ | m <;> simp [Priority.ofOrdinal] <;> omega

/-- C7: reading the priority of a QoS byte whose 3-bit priority ordinal is
out of range (which happens exactly when the ordinal is 7) does not fail:
`priority` returns the default priority Data and the diagnostic observation
is emitted. -/
theorem qos_priority_fallback (b : Nat)
    (h : Priority.ofOrdinal (b % 8) = none) :
    QoS.priority ⟨b⟩ = Priority.data ∧
    (QoS.priorityWithDiag ⟨b⟩).2 = true ∧ b % 8 = 7 := by
  refine ⟨?_, ?_, ?_⟩
  · rw [QoS.priority, QoS.priorityWithDiag, h]
  · rw [QoS.priorityWithDiag, h]
  · have h7 := (ofOrdinal_none_iff (b % 8)).mp h
    omega

/-- Witness for C7 at the byte 15 (priority bits 111, an out-of-range
ordinal). -/
theorem qos_priority_fallback_witness :
    QoS.priority ⟨15⟩ = Priority.data ∧
    (QoS.priorityWithDiag ⟨15⟩).2 = true ∧ 15 % 8 = 7 :=
  qos_priority_fallback 15 (by decide)

/-- A timestamp: a clock value tagged with the id of its source. -/
structure Timestamp where
  time : Nat
  id : Nat
deriving DecidableEq

/-- The kind of a sample: `Put` (the default) or `Delete`. -/
inductive SampleKind where
  | put
  | delete
deriving DecidableEq

/-- A payload together with its encoding identifier. -/
structure Value where
  payload : List Nat
  encoding : Nat
deriving DecidableEq

/-- `SourceInfo`: optional source identity and per-source sequence number. -/
structure SourceInfo where
  source_id : Option Nat
  source_sn : Option Nat
deriving DecidableEq

/-- The `Sample` message envelope of `src/zenoh/src/sample.rs`. -/
structure Sample where
  key_expr : Str
  value : Value
  kind : SampleKind
  timestamp : Option Timestamp
  qos : QoS
  source_info : SourceInfo
  attachment : Option Attachment
deriving DecidableEq

/-- Modelled from the spec: `new_reception_timestamp` (external clock, not
under src/) — "a reception-time clock value tagged with a zero/placeholder
source id, deterministic given the call time"; the call time is passed
explicitly. -/
def new_reception_timestamp (now : Nat) : Timestamp := ⟨now, 0⟩

/-- `Sample::ensure_timestamp`: if a timestamp is present return it and leave
the sample alone; otherwise stamp the sample with a fresh reception
timestamp, cache it, and return it. The returned timestamp and the updated
sample are paired, the clock value being an explicit argument. -/
def Sample.ensure_timestamp (s : Sample) (now : Nat) : Timestamp × Sample :=
  match s.timestamp with
  | some t => (t, s)
  | none =>
    let t := new_reception_timestamp now
    (t, { s with timestamp := some t })

/-- C9: `ensure_timestamp` with a timestamp present is a no-op returning that
timestamp and leaving the whole sample unchanged; with no timestamp it sets
the timestamp to the reception-time value with the zero placeholder id and
returns it; and in both cases every field other than the timestamp is
unchanged. -/
theorem ensure_timestamp_spec (s : Sample) (now : Nat) (t : Timestamp) :
    (s.timestamp = some t → s.ensure_timestamp now = (t, s)) ∧
    (s.timestamp = none →
      (s.ensure_timestamp now).1 = new_reception_timestamp now ∧
      (s.ensure_timestamp now).1 = ⟨now, 0⟩ ∧
      (s.ensure_timestamp now).2.timestamp = some ⟨now, 0⟩) ∧
    ((s.ensure_timestamp now).2.key_expr = s.key_expr ∧
     (s.ensure_timestamp now).2.value = s.value ∧
     (s.ensure_timestamp now).2.kind = s.kind ∧
     (s.ensure_timestamp now).2.qos = s.qos ∧
     (s.ensure_timestamp now).2.source_info = s.source_info ∧
     (s.ensure_timestamp now).2.attachment = s.attachment) := by
  refine ⟨fun h => ?_, fun h => ?_, ?_⟩
  · rw [Sample.ensure_timestamp, h]
  · rw [Sample.ensure_timestamp, h]
    exact ⟨rfl, rfl, rfl⟩
  · cases h : s.timestamp with
    | some u => rw [Sample.ensure_timestamp, h]; exact ⟨rfl, rfl, rfl, rfl, rfl, rfl⟩
    | none => rw [Sample.ensure_timestamp, h]; exact ⟨rfl, rfl, rfl, rfl, rfl, rfl⟩

/-- Witness for C9: a stamped sample is returned unchanged with its own
timestamp; an unstamped sample gets the reception timestamp with zero id. -/
theorem ensure_timestamp_spec_witness :
    Sample.ensure_timestamp
        ⟨[], ⟨[], 0⟩, .put, some ⟨3, 1⟩, ⟨4⟩, ⟨none, none⟩, none⟩ 5 =
      (⟨3, 1⟩, ⟨[], ⟨[], 0⟩, .put, some ⟨3, 1⟩, ⟨4⟩, ⟨none, none⟩, none⟩) ∧
    (Sample.ensure_timestamp
        ⟨[], ⟨[], 0⟩, .put, none, ⟨4⟩, ⟨none, none⟩, none⟩ 5).1 = ⟨5, 0⟩ ∧
    (Sample.ensure_timestamp
        ⟨[], ⟨[], 0⟩, .put, none, ⟨4⟩, ⟨none, none⟩, none⟩ 5).2.timestamp =
      some ⟨5, 0⟩ := by
  refine ⟨?_, ?_, ?_⟩
  · exact (ensure_timestamp_spec
      ⟨[], ⟨[], 0⟩, .put, some ⟨3, 1⟩, ⟨4⟩, ⟨none, none⟩, none⟩ 5 ⟨3, 1⟩).1 rfl
  · exact ((ensure_timestamp_spec
      ⟨[], ⟨[], 0⟩, .put, none, ⟨4⟩, ⟨none, none⟩, none⟩ 5 ⟨5, 0⟩).2.1 rfl).2.1
  · exact ((ensure_timestamp_spec
      ⟨[], ⟨[], 0⟩, .put, none, ⟨4⟩, ⟨none, none⟩, none⟩ 5 ⟨5, 0⟩).2.1 rfl).2.2

end Zenoh
